import Mathlib

/-!
Shallow embedding of the Pet Store API (src/app/main.py, src/app/models.py).

The application keeps three process-local lists (`pets_db`, `orders_db`,
`users_db`) and mutates them through FastAPI request handlers.  Each handler
is embedded here as a pure function from the relevant collections (plus the
request payload and the current wall-clock time, modelled as a `Nat`) to the
response together with the post-state of the collections.  A raised
`HTTPException` is modelled as the `.error` branch of an `Except`; since every
`raise` in the source occurs before any mutation, the error branches return
the collections unchanged.

Python `float` prices are modelled as `Rat` (no arithmetic is ever performed
on them), Python `datetime` values as `Nat` tick counts, and Python `int` ids
as `Int`.
-/

namespace PetStore

/-- The `PetStatus` enumeration (models.py).  Its `.value` is the string label. -/
inductive PetStatus where
  | available
  | pending
  | sold
deriving DecidableEq, Repr

/-- The `OrderStatus` enumeration (models.py). -/
inductive OrderStatus where
  | placed
  | approved
  | delivered
  | cancelled
deriving DecidableEq, Repr

/-- The `PetCategory` enumeration (models.py). -/
inductive PetCategory where
  | dog
  | cat
  | bird
  | fish
  | reptile
  | other
deriving DecidableEq, Repr

/-- Internal `Pet` model (models.py).  `created_at` / `updated_at` are
`datetime` ticks modelled as `Nat`; `updated_at` is `None` until the first
update. -/
structure Pet where
  id : Int
  name : String
  category : PetCategory
  status : PetStatus
  tags : List String
  price : Rat
  description : Option String
  photo_urls : List String
  created_at : Nat
  updated_at : Option Nat
deriving DecidableEq, Repr

/-- The `PetCreate` payload (models.py): all fields of `Pet` except the
server-assigned `id` and the timestamps. -/
structure PetCreate where
  name : String
  category : PetCategory
  status : PetStatus
  tags : List String
  price : Rat
  description : Option String
  photo_urls : List String
deriving DecidableEq, Repr

/-- The `PetUpdate` payload (models.py): every field optional; `none` models a
field absent from the payload (pydantic `exclude_unset`).  `description` is
itself optional on `Pet`, so an explicitly provided `null` is a legal update
value, hence the nested `Option`. -/
structure PetUpdate where
  name : Option String
  category : Option PetCategory
  status : Option PetStatus
  tags : Option (List String)
  price : Option Rat
  description : Option (Option String)
  photo_urls : Option (List String)
deriving DecidableEq, Repr

/-- Internal `Order` model (models.py). -/
structure Order where
  id : Int
  pet_id : Int
  user_id : Int
  quantity : Int
  ship_date : Option Nat
  status : OrderStatus
  complete : Bool
  created_at : Nat
  updated_at : Option Nat
deriving DecidableEq, Repr

/-- The `OrderCreate` payload (models.py). -/
structure OrderCreate where
  pet_id : Int
  user_id : Int
  quantity : Int
  ship_date : Option Nat
  status : OrderStatus
  complete : Bool
deriving DecidableEq, Repr

/-- Internal `User` model (models.py). -/
structure User where
  id : Int
  username : String
  first_name : String
  last_name : String
  email : String
  phone : Option String
  password : String
  user_status : Int
  created_at : Nat
  updated_at : Option Nat
deriving DecidableEq, Repr

/-- The `UserCreate` payload (models.py). -/
structure UserCreate where
  username : String
  first_name : String
  last_name : String
  email : String
  phone : Option String
  password : String
  user_status : Int
deriving DecidableEq, Repr

/-- A raised `fastapi.HTTPException`: status code and `detail` message. -/
structure HTTPError where
  status_code : Nat
  detail : String
deriving DecidableEq, Repr

/-- Python `max(l, default=d)`: the default applies only to an empty list;
over a non-empty list it is the ordinary maximum. -/
def pyMax (l : List Int) (d : Int) : Int :=
  match l with
  | [] => d
  | x :: xs => xs.foldl max x

/-- Handler `create_pet` (main.py:156-170): `new_id = max([p.id for p in pets_db],
default=0) + 1`, build the record with `created_at` set to the current time
and `updated_at` unset, append to `pets_db`, return it. -/
def create_pet (pets : List Pet) (pet : PetCreate) (now : Nat) : Pet × List Pet :=
  let new_id := pyMax (pets.map (·.id)) 0 + 1
  let new_pet : Pet :=
    { id := new_id
      name := pet.name
      category := pet.category
      status := pet.status
      tags := pet.tags
      price := pet.price
      description := pet.description
      photo_urls := pet.photo_urls
      created_at := now
      updated_at := none }
  (new_pet, pets ++ [new_pet])

/-- The merge `pet.copy(update=pet_update.dict(exclude_unset=True))` followed by
`updated_at = datetime.utcnow()` (main.py:177-179): provided fields overwrite,
absent fields keep their prior values; `id` and `created_at` cannot appear in
a `PetUpdate` payload so they are always kept. -/
def applyPetUpdate (p : Pet) (u : PetUpdate) (now : Nat) : Pet :=
  { id := p.id
    name := u.name.getD p.name
    category := u.category.getD p.category
    status := u.status.getD p.status
    tags := u.tags.getD p.tags
    price := u.price.getD p.price
    description := u.description.getD p.description
    photo_urls := u.photo_urls.getD p.photo_urls
    created_at := p.created_at
    updated_at := some now }

/-- Handler `update_pet` (main.py:172-182): scan for the first pet with the given id,
replace it in place (`pets_db[i] = updated_pet`), return it; 404 if absent. -/
def update_pet (pets : List Pet) (pet_id : Int) (u : PetUpdate) (now : Nat) :
    Option (Pet × List Pet) :=
  match pets with
  | [] => none
  | p :: rest =>
    if p.id = pet_id then
      let p' := applyPetUpdate p u now
      some (p', p' :: rest)
    else
      (update_pet rest pet_id u now).map (fun r => (r.1, p :: r.2))

/-- The `del pets_db[i]` loop shared by the three delete handlers
(main.py:187-189 and analogues): remove the first record matching the id,
`none` when no record matches. -/
def deleteFirst {α : Type} (getId : α → Int) (l : List α) (i : Int) : Option (List α) :=
  match l with
  | [] => none
  | x :: rest =>
    if getId x = i then some rest
    else (deleteFirst getId rest i).map (x :: ·)

/-- Handler `get_pet` (main.py:147-153): first pet with the given id, else 404. -/
def get_pet (pets : List Pet) (pet_id : Int) : Except HTTPError Pet :=
  match pets.find? (fun p => p.id == pet_id) with
  | some p => .ok p
  | none => .error ⟨404, "Pet not found"⟩

/-- Handler `get_pets` (main.py:125-145): optional status filter, then optional
category filter, then the Python slice `filtered[offset : offset + limit]`
(which for `0 ≤ offset` and `0 ≤ limit` is drop-then-take). -/
def get_pets (pets : List Pet) (status : Option PetStatus)
    (category : Option PetCategory) (limit : Nat) (offset : Nat) : List Pet :=
  let filtered₁ : List Pet :=
    match status with
    | some st => pets.filter (fun p => p.status == st)
    | none => pets
  let filtered₂ : List Pet :=
    match category with
    | some c => filtered₁.filter (fun p => p.category == c)
    | none => filtered₁
  (filtered₂.drop offset).take limit

/-- Handler `create_order` (main.py:225-249): reject with 400 "Pet not found" when no
pet carries `order.pet_id`, then with 400 "User not found" when no user
carries `order.user_id`; otherwise assign `max+1` id, set `created_at`
(pydantic `default_factory=datetime.utcnow`), leave `updated_at` unset,
append.  Both `raise`s precede the append, so on error the collection is
returned unchanged. -/
def create_order (pets : List Pet) (users : List User) (orders : List Order)
    (order : OrderCreate) (now : Nat) : Except HTTPError Order × List Order :=
  if ∃ p ∈ pets, p.id = order.pet_id then
    if ∃ u ∈ users, u.id = order.user_id then
      let new_id := pyMax (orders.map (·.id)) 0 + 1
      let new_order : Order :=
        { id := new_id
          pet_id := order.pet_id
          user_id := order.user_id
          quantity := order.quantity
          ship_date := order.ship_date
          status := order.status
          complete := order.complete
          created_at := now
          updated_at := none }
      (.ok new_order, orders ++ [new_order])
    else
      (.error ⟨400, "User not found"⟩, orders)
  else
    (.error ⟨400, "Pet not found"⟩, orders)

/-- Handler `create_user` (main.py:286-309): reject with 400 "Username already
exists" on an exact username match, then with 400 "Email already exists" on
an exact email match; otherwise assign `max+1` id, set `created_at`, append.
Both `raise`s precede the append, so on error the collection is returned
unchanged. -/
def create_user (users : List User) (user : UserCreate) (now : Nat) :
    Except HTTPError User × List User :=
  if ∃ u ∈ users, u.username = user.username then
    (.error ⟨400, "Username already exists"⟩, users)
  else if ∃ u ∈ users, u.email = user.email then
    (.error ⟨400, "Email already exists"⟩, users)
  else
    let new_id := pyMax (users.map (·.id)) 0 + 1
    let new_user : User :=
      { id := new_id
        username := user.username
        first_name := user.first_name
        last_name := user.last_name
        email := user.email
        phone := user.phone
        password := user.password
        user_status := user.user_status
        created_at := now
        updated_at := none }
    (.ok new_user, users ++ [new_user])

/-- The dict-tally step of `get_inventory` (main.py:329-333): missing key is
inserted with count 0 then incremented, existing key is incremented in place.
Python dicts preserve insertion order and hold each key once. -/
def bumpTally (inv : List (PetStatus × Nat)) (s : PetStatus) : List (PetStatus × Nat) :=
  match inv with
  | [] => [(s, 1)]
  | (k, v) :: rest =>
    if k = s then (k, v + 1) :: rest
    else (k, v) :: bumpTally rest s

/-- Handler `get_inventory` (main.py:325-334): tally the pets by status.  The Python
dict is keyed by `pet.status.value`; since `.value` is a bijection between
`PetStatus` members and their string labels, the map is keyed here by
`PetStatus` directly. -/
def get_inventory (pets : List Pet) : List (PetStatus × Nat) :=
  pets.foldl (fun inv pet => bumpTally inv pet.status) []

/-- The tally fold of `get_inventory` with an arbitrary starting dict, for
reasoning by induction; `get_inventory pets = foldTally pets []`. -/
def foldTally (pets : List Pet) (inv : List (PetStatus × Nat)) : List (PetStatus × Nat) :=
  pets.foldl (fun inv pet => bumpTally inv pet.status) inv

/-- The three process-local collections (main.py:69-71). -/
structure AppState where
  pets : List Pet
  orders : List Order
  users : List User
deriving DecidableEq, Repr

/-- The seeded pets of `initialize_sample_data` (main.py:77-91).  Seed
`created_at` times are process-start ticks, modelled as 0. -/
def samplePets : List Pet :=
  [ { id := 1, name := "Buddy", category := .dog, status := .available
      tags := ["friendly", "house-trained"], price := (29999 : Rat) / 100
      description := some "A friendly golden retriever"
      photo_urls := ["https://example.com/buddy1.jpg"]
      created_at := 0, updated_at := none },
    { id := 2, name := "Whiskers", category := .cat, status := .available
      tags := ["playful", "indoor"], price := (19999 : Rat) / 100
      description := some "A playful orange tabby cat"
      photo_urls := ["https://example.com/whiskers1.jpg"]
      created_at := 0, updated_at := none },
    { id := 3, name := "Tweety", category := .bird, status := .sold
      tags := ["colorful", "singing"], price := (8999 : Rat) / 100
      description := some "A beautiful canary"
      photo_urls := ["https://example.com/tweety1.jpg"]
      created_at := 0, updated_at := none } ]

/-- The seeded users of `initialize_sample_data` (main.py:94-99). -/
def sampleUsers : List User :=
  [ { id := 1, username := "johndoe", first_name := "John", last_name := "Doe"
      email := "john@example.com", phone := some "+1234567890"
      password := "password123", user_status := 1
      created_at := 0, updated_at := none },
    { id := 2, username := "janedoe", first_name := "Jane", last_name := "Doe"
      email := "jane@example.com", phone := some "+1234567891"
      password := "password123", user_status := 1
      created_at := 0, updated_at := none } ]

/-- The state after `initialize_sample_data()` (main.py:103): three seeded
pets, no orders, two seeded users. -/
def initState : AppState :=
  { pets := samplePets, orders := [], users := sampleUsers }

/-- One successful mutating handler invocation.  Handlers that raise leave
the state unchanged, and the read-only handlers (`get_*`, `/inventory`,
health) never mutate, so reachability over these steps covers every state the
application can be in. -/
inductive Step : AppState → AppState → Prop where
  | createPet (s : AppState) (req : PetCreate) (now : Nat) :
      Step s { s with pets := (create_pet s.pets req now).2 }
  | updatePet (s : AppState) (pet_id : Int) (u : PetUpdate) (now : Nat)
      (p : Pet) (pets' : List Pet)
      (h : update_pet s.pets pet_id u now = some (p, pets')) :
      Step s { s with pets := pets' }
  | deletePet (s : AppState) (pet_id : Int) (pets' : List Pet)
      (h : deleteFirst Pet.id s.pets pet_id = some pets') :
      Step s { s with pets := pets' }
  | createOrder (s : AppState) (req : OrderCreate) (now : Nat) :
      Step s { s with orders := (create_order s.pets s.users s.orders req now).2 }
  | deleteOrder (s : AppState) (order_id : Int) (orders' : List Order)
      (h : deleteFirst Order.id s.orders order_id = some orders') :
      Step s { s with orders := orders' }
  | createUser (s : AppState) (req : UserCreate) (now : Nat) :
      Step s { s with users := (create_user s.users req now).2 }
  | deleteUser (s : AppState) (user_id : Int) (users' : List User)
      (h : deleteFirst User.id s.users user_id = some users') :
      Step s { s with users := users' }

/-- States reachable from the seeded initial state by handler invocations. -/
def Reachable (s : AppState) : Prop :=
  Relation.ReflTransGen Step initState s

/-- Handler `delete_pet` (main.py:184-195) at the level of the whole application
state: remove the first pet with the given id and acknowledge (the source
returns an `ApiResponse` with code 200), or 404 when absent.  The handler
only touches `pets_db`. -/
def delete_pet (s : AppState) (pet_id : Int) : Except HTTPError AppState :=
  match deleteFirst Pet.id s.pets pet_id with
  | some pets' => .ok { s with pets := pets' }
  | none => .error ⟨404, "Pet not found"⟩

/-- First value stored under a status key of an inventory tally (the dict
read `inventory[status]`). -/
def tallyOf (inv : List (PetStatus × Nat)) (st : PetStatus) : Option Nat :=
  match inv with
  | [] => none
  | (k, v) :: rest => if k = st then some v else tallyOf rest st

/-- Ids of the three collections, pairwise strictly increasing in stored
order (insertion order). -/
def idsStrictSorted (s : AppState) : Prop :=
  (s.pets.map Pet.id).Pairwise (· < ·) ∧
  (s.orders.map Order.id).Pairwise (· < ·) ∧
  (s.users.map User.id).Pairwise (· < ·)

/-- The conjunctive filter predicate described by the spec for pet listing:
a pet passes when it matches the status filter (if given) and the category
filter (if given). -/
def petMatches (status : Option PetStatus) (category : Option PetCategory)
    (p : Pet) : Bool :=
  (match status with
   | some st => p.status == st
   | none => true) &&
  (match category with
   | some c => p.category == c
   | none => true)

/-- A concrete well-formed pet-creation payload, used to instantiate the
universally quantified theorems at concrete inputs. -/
def samplePetCreate : PetCreate :=
  { name := "Rex", category := .dog, status := .available
    tags := [], price := 5, description := none, photo_urls := [] }

/-- A concrete update payload providing only `status` and `price`. -/
def samplePetUpdate : PetUpdate :=
  { name := none, category := none, status := some .sold
    tags := none, price := some 7, description := none, photo_urls := none }

/-- A concrete order-creation payload referencing seeded pet 1 and user 1. -/
def sampleOrderCreate : OrderCreate :=
  { pet_id := 1, user_id := 1, quantity := 1, ship_date := none
    status := .placed, complete := false }

/-- An order-creation payload whose `pet_id` and `user_id` both match
nothing in the seeded collections. -/
def badOrderCreate : OrderCreate :=
  { pet_id := 999, user_id := 999, quantity := 1, ship_date := none
    status := .placed, complete := false }

/-- A fresh user-creation payload (no collision with the seeded users). -/
def sampleUserCreate : UserCreate :=
  { username := "newuser", first_name := "New", last_name := "User"
    email := "new@example.com", phone := none, password := "password123"
    user_status := 1 }

/-- A user-creation payload colliding with seeded user 1 on username and
with seeded user 2 on email. -/
def dupUserCreate : UserCreate :=
  { username := "johndoe", first_name := "Johnny", last_name := "Doe"
    email := "jane@example.com", phone := none, password := "password123"
    user_status := 1 }

/-! ## Basic lemmas about `pyMax` -/

theorem le_foldl_max_init (l : List Int) (a : Int) : a ≤ l.foldl max a := by
  induction l generalizing a with
  | nil => exact le_refl a
  | cons x xs ih => exact le_trans (le_max_left a x) (ih (max a x))

theorem le_foldl_max_of_mem {l : List Int} {x : Int} (h : x ∈ l) (a : Int) :
    x ≤ l.foldl max a := by
  induction l generalizing a with
  | nil => cases h
  | cons y ys ih =>
    rcases List.mem_cons.mp h with rfl | hmem
    · exact le_trans (le_max_right a x) (le_foldl_max_init ys (max a x))
    · exact ih hmem (max a y)

theorem foldl_max_eq_or_mem (l : List Int) (a : Int) :
    l.foldl max a = a ∨ l.foldl max a ∈ l := by
  induction l generalizing a with
  | nil => exact Or.inl rfl
  | cons y ys ih =>
    rcases ih (max a y) with h | h
    · rcases max_choice a y with hm | hm
      · exact Or.inl (by rw [List.foldl_cons, h, hm])
      · exact Or.inr (by rw [List.foldl_cons, h, hm]; exact List.mem_cons_self y ys)
    · exact Or.inr (List.mem_cons_of_mem y h)

theorem le_pyMax_of_mem {l : List Int} {x : Int} (h : x ∈ l) (d : Int) :
    x ≤ pyMax l d := by
  cases l with
  | nil => cases h
  | cons y ys =>
    rcases List.mem_cons.mp h with rfl | hmem
    · exact le_foldl_max_init ys x
    · exact le_foldl_max_of_mem hmem y

theorem pyMax_mem {l : List Int} (h : l ≠ []) (d : Int) : pyMax l d ∈ l := by
  cases l with
  | nil => exact absurd rfl h
  | cons y ys =>
    rcases foldl_max_eq_or_mem ys y with he | hm
    · exact (by rw [pyMax, he]; exact List.mem_cons_self y ys)
    · exact (by rw [pyMax]; exact List.mem_cons_of_mem y hm)

/-! ## Lemmas about `create_pet` -/

theorem create_pet_fst_id (pets : List Pet) (req : PetCreate) (now : Nat) :
    (create_pet pets req now).1.id = pyMax (pets.map Pet.id) 0 + 1 := rfl

theorem create_pet_snd (pets : List Pet) (req : PetCreate) (now : Nat) :
    (create_pet pets req now).2 = pets ++ [(create_pet pets req now).1] := rfl

theorem mem_id_lt_create_pet_id {pets : List Pet} {p : Pet} (h : p ∈ pets)
    (req : PetCreate) (now : Nat) :
    p.id < (create_pet pets req now).1.id := by
  rw [create_pet_fst_id]
  exact lt_of_le_of_lt (le_pyMax_of_mem (List.mem_map_of_mem Pet.id h) 0)
    (lt_add_one _)

/-! ## Lemmas about `create_order` and `create_user` -/

theorem create_order_pet_missing {pets : List Pet} {users : List User}
    {orders : List Order} {o : OrderCreate} {now : Nat}
    (h : ¬ ∃ p ∈ pets, p.id = o.pet_id) :
    create_order pets users orders o now = (.error ⟨400, "Pet not found"⟩, orders) := by
  unfold create_order
  rw [if_neg h]

theorem create_order_user_missing {pets : List Pet} {users : List User}
    {orders : List Order} {o : OrderCreate} {now : Nat}
    (hp : ∃ p ∈ pets, p.id = o.pet_id) (hu : ¬ ∃ u ∈ users, u.id = o.user_id) :
    create_order pets users orders o now = (.error ⟨400, "User not found"⟩, orders) := by
  unfold create_order
  rw [if_pos hp, if_neg hu]

theorem create_order_ok {pets : List Pet} {users : List User}
    {orders : List Order} {o : OrderCreate} {now : Nat}
    (hp : ∃ p ∈ pets, p.id = o.pet_id) (hu : ∃ u ∈ users, u.id = o.user_id) :
    ∃ w : Order, create_order pets users orders o now = (.ok w, orders ++ [w]) ∧
      w.id = pyMax (orders.map Order.id) 0 + 1 ∧ w.pet_id = o.pet_id ∧
      w.user_id = o.user_id ∧ w.quantity = o.quantity ∧
      w.ship_date = o.ship_date ∧ w.status = o.status ∧
      w.complete = o.complete ∧ w.created_at = now ∧ w.updated_at = none := by
  unfold create_order
  rw [if_pos hp, if_pos hu]
  exact ⟨_, rfl, rfl, rfl, rfl, rfl, rfl, rfl, rfl, rfl, rfl⟩

theorem create_user_username_taken {users : List User} {u : UserCreate} {now : Nat}
    (h : ∃ v ∈ users, v.username = u.username) :
    create_user users u now = (.error ⟨400, "Username already exists"⟩, users) := by
  unfold create_user
  rw [if_pos h]

theorem create_user_email_taken {users : List User} {u : UserCreate} {now : Nat}
    (hn : ¬ ∃ v ∈ users, v.username = u.username)
    (he : ∃ v ∈ users, v.email = u.email) :
    create_user users u now = (.error ⟨400, "Email already exists"⟩, users) := by
  unfold create_user
  rw [if_neg hn, if_pos he]

theorem create_user_ok {users : List User} {u : UserCreate} {now : Nat}
    (hn : ¬ ∃ v ∈ users, v.username = u.username)
    (he : ¬ ∃ v ∈ users, v.email = u.email) :
    ∃ w : User, create_user users u now = (.ok w, users ++ [w]) ∧
      w.id = pyMax (users.map User.id) 0 + 1 ∧ w.username = u.username ∧
      w.first_name = u.first_name ∧ w.last_name = u.last_name ∧
      w.email = u.email ∧ w.phone = u.phone ∧ w.password = u.password ∧
      w.user_status = u.user_status ∧ w.created_at = now ∧ w.updated_at = none := by
  unfold create_user
  rw [if_neg hn, if_neg he]
  exact ⟨_, rfl, rfl, rfl, rfl, rfl, rfl, rfl, rfl, rfl, rfl, rfl⟩

theorem create_order_snd_ids (pets : List Pet) (users : List User)
    (orders : List Order) (o : OrderCreate) (now : Nat) :
    ((create_order pets users orders o now).2).map Order.id = orders.map Order.id ∨
    ((create_order pets users orders o now).2).map Order.id
      = orders.map Order.id ++ [pyMax (orders.map Order.id) 0 + 1] := by
  by_cases hp : ∃ p ∈ pets, p.id = o.pet_id
  · by_cases hu : ∃ u ∈ users, u.id = o.user_id
    · obtain ⟨w, hw, hid, -⟩ := create_order_ok hp hu
      right
      rw [hw, List.map_append, List.map_cons, List.map_nil, hid]
    · left
      rw [create_order_user_missing hp hu]
  · left
    rw [create_order_pet_missing hp]

theorem create_user_snd_ids (users : List User) (u : UserCreate) (now : Nat) :
    ((create_user users u now).2).map User.id = users.map User.id ∨
    ((create_user users u now).2).map User.id
      = users.map User.id ++ [pyMax (users.map User.id) 0 + 1] := by
  by_cases hn : ∃ v ∈ users, v.username = u.username
  · left
    rw [create_user_username_taken hn]
  · by_cases he : ∃ v ∈ users, v.email = u.email
    · left
      rw [create_user_email_taken hn he]
    · obtain ⟨w, hw, hid, -⟩ := create_user_ok hn he
      right
      rw [hw, List.map_append, List.map_cons, List.map_nil, hid]

/-! ## Lemmas about `deleteFirst` and `update_pet` -/

theorem deleteFirst_sublist {α : Type} (getId : α → Int) :
    ∀ {l l' : List α} {i : Int}, deleteFirst getId l i = some l' → l'.Sublist l := by
  intro l
  induction l with
  | nil => intro l' i h; simp [deleteFirst] at h
  | cons x rest ih =>
    intro l' i h
    unfold deleteFirst at h
    by_cases hx : getId x = i
    · rw [if_pos hx] at h
      cases h
      exact List.Sublist.cons x (List.Sublist.refl rest)
    · rw [if_neg hx] at h
      cases hrec : deleteFirst getId rest i with
      | none => rw [hrec] at h; cases h
      | some rest' =>
        rw [hrec] at h
        cases h
        exact List.Sublist.cons₂ x (ih hrec)

theorem deleteFirst_eq_none_iff {α : Type} (getId : α → Int) :
    ∀ (l : List α) (i : Int),
      deleteFirst getId l i = none ↔ ∀ x ∈ l, getId x ≠ i := by
  intro l
  induction l with
  | nil => intro i; simp [deleteFirst]
  | cons x rest ih =>
    intro i
    unfold deleteFirst
    by_cases hx : getId x = i
    · rw [if_pos hx]
      simp [hx]
    · rw [if_neg hx]
      constructor
      · intro h y hy
        rcases List.mem_cons.mp hy with rfl | hmem
        · exact hx
        · cases hrec : deleteFirst getId rest i with
          | none => exact ((ih i).mp hrec) y hmem
          | some rest' => rw [hrec] at h; cases h
      · intro h
        rw [(ih i).mpr (fun y hy => h y (List.mem_cons_of_mem x hy))]
        rfl

theorem deleteFirst_eq_filter {α : Type} (getId : α → Int) :
    ∀ {l : List α} {x : α} {i : Int},
      (l.map getId).Pairwise (· ≠ ·) → x ∈ l → getId x = i →
      deleteFirst getId l i = some (l.filter (fun y => getId y != i)) := by
  intro l
  induction l with
  | nil => intro x i _ hx _; cases hx
  | cons a rest ih =>
    intro x i hnd hx hxi
    have hnd2 : (getId a :: rest.map getId).Pairwise (· ≠ ·) := by
      simpa using hnd
    obtain ⟨hhead, hnd'⟩ := List.pairwise_cons.mp hnd2
    by_cases ha : getId a = i
    · have hrest : ∀ y ∈ rest, getId y ≠ i := by
        intro y hy
        have := hhead (getId y) (List.mem_map_of_mem getId hy)
        intro hcontra
        exact this (by rw [hcontra, ha])
      unfold deleteFirst
      rw [if_pos ha]
      have hfilter : rest.filter (fun y => getId y != i) = rest :=
        List.filter_eq_self.mpr (fun y hy => by
          simpa using hrest y hy)
      rw [List.filter_cons]
      simp only [ha, bne_self_eq_false, if_neg]
      simp [hfilter]
    · have hxrest : x ∈ rest := by
        rcases List.mem_cons.mp hx with rfl | hmem
        · exact absurd hxi ha
        · exact hmem
      unfold deleteFirst
      rw [if_neg ha, ih hnd' hxrest hxi]
      rw [List.filter_cons]
      have : (getId a != i) = true := bne_iff_ne.mpr ha
      simp [this]

theorem update_pet_at {l₁ l₂ : List Pet} {p : Pet} {pet_id : Int}
    (u : PetUpdate) (now : Nat)
    (hskip : ∀ q ∈ l₁, q.id ≠ pet_id) (hp : p.id = pet_id) :
    update_pet (l₁ ++ p :: l₂) pet_id u now =
      some (applyPetUpdate p u now, l₁ ++ applyPetUpdate p u now :: l₂) := by
  induction l₁ with
  | nil =>
    simp only [List.nil_append, update_pet]
    rw [if_pos hp]
  | cons a rest ih =>
    have ha : a.id ≠ pet_id := hskip a (List.mem_cons_self a rest)
    simp only [List.cons_append, update_pet, List.append_eq]
    rw [if_neg ha, ih (fun q hq => hskip q (List.mem_cons_of_mem a hq))]
    rfl

theorem update_pet_ids :
    ∀ {pets : List Pet} {pet_id : Int} {u : PetUpdate} {now : Nat}
      {p : Pet} {pets' : List Pet},
      update_pet pets pet_id u now = some (p, pets') →
      pets'.map Pet.id = pets.map Pet.id := by
  intro pets
  induction pets with
  | nil => intro _ _ _ _ _ h; simp [update_pet] at h
  | cons a rest ih =>
    intro pet_id u now p pets' h
    unfold update_pet at h
    by_cases ha : a.id = pet_id
    · rw [if_pos ha] at h
      cases h
      rfl
    · rw [if_neg ha] at h
      cases hrec : update_pet rest pet_id u now with
      | none => rw [hrec] at h; cases h
      | some r =>
        rw [hrec] at h
        cases h
        simp only [List.map_cons]
        rw [ih hrec]

/-! ## The id invariant over reachable states -/

theorem pairwise_lt_append_pyMax {ids : List Int} (h : ids.Pairwise (· < ·)) :
    (ids ++ [pyMax ids 0 + 1]).Pairwise (· < ·) := by
  rw [List.pairwise_append]
  refine ⟨h, List.pairwise_singleton _ _, ?_⟩
  intro a ha b hb
  have hb' : b = pyMax ids 0 + 1 := List.mem_singleton.mp hb
  rw [hb']
  exact lt_of_le_of_lt (le_pyMax_of_mem ha 0) (lt_add_one _)

theorem step_preserves_sorted {s s' : AppState} (hstep : Step s s')
    (h : idsStrictSorted s) : idsStrictSorted s' := by
  obtain ⟨hpets, horders, husers⟩ := h
  cases hstep with
  | createPet req now =>
    refine ⟨?_, horders, husers⟩
    rw [create_pet_snd, List.map_append]
    exact pairwise_lt_append_pyMax hpets
  | updatePet pet_id u now p pets' hup =>
    exact ⟨by rw [update_pet_ids hup]; exact hpets, horders, husers⟩
  | deletePet pet_id pets' hdel =>
    exact ⟨List.Pairwise.sublist ((deleteFirst_sublist Pet.id hdel).map Pet.id) hpets,
      horders, husers⟩
  | createOrder req now =>
    refine ⟨hpets, ?_, husers⟩
    rcases create_order_snd_ids s.pets s.users s.orders req now with he | he
    · rw [he]; exact horders
    · rw [he]; exact pairwise_lt_append_pyMax horders
  | deleteOrder order_id orders' hdel =>
    exact ⟨hpets,
      List.Pairwise.sublist ((deleteFirst_sublist Order.id hdel).map Order.id) horders,
      husers⟩
  | createUser req now =>
    refine ⟨hpets, horders, ?_⟩
    rcases create_user_snd_ids s.users req now with he | he
    · rw [he]; exact husers
    · rw [he]; exact pairwise_lt_append_pyMax husers
  | deleteUser user_id users' hdel =>
    exact ⟨hpets, horders,
      List.Pairwise.sublist ((deleteFirst_sublist User.id hdel).map User.id) husers⟩

theorem initState_sorted : idsStrictSorted initState := by
  refine ⟨?_, ?_, ?_⟩ <;> decide

theorem reachable_sorted {s : AppState} (h : Reachable s) : idsStrictSorted s := by
  induction h with
  | refl => exact initState_sorted
  | tail _ hstep ih => exact step_preserves_sorted hstep ih

/-! ## Lemmas about the inventory tally -/

theorem tallyOf_bump_self (inv : List (PetStatus × Nat)) (s : PetStatus) :
    tallyOf (bumpTally inv s) s = some ((tallyOf inv s).getD 0 + 1) := by
  induction inv with
  | nil => simp [bumpTally, tallyOf]
  | cons e rest ih =>
    obtain ⟨k, v⟩ := e
    by_cases hk : k = s
    · subst hk
      simp [bumpTally, tallyOf]
    · simp only [bumpTally, tallyOf, if_neg hk]
      exact ih

theorem tallyOf_bump_ne (inv : List (PetStatus × Nat)) {k s : PetStatus}
    (h : k ≠ s) : tallyOf (bumpTally inv s) k = tallyOf inv k := by
  induction inv with
  | nil => simp [bumpTally, tallyOf, Ne.symm h]
  | cons e rest ih =>
    obtain ⟨k', v⟩ := e
    by_cases hk : k' = s
    · subst hk
      simp [bumpTally, tallyOf, Ne.symm h]
    · by_cases hk2 : k' = k
      · subst hk2
        simp [bumpTally, tallyOf, if_neg hk]
      · simp only [bumpTally, tallyOf, if_neg hk, if_neg hk2]
        exact ih

theorem tallyOf_eq_some_mem :
    ∀ {inv : List (PetStatus × Nat)} {st : PetStatus} {n : Nat},
      tallyOf inv st = some n → (st, n) ∈ inv := by
  intro inv
  induction inv with
  | nil => intro st n h; simp [tallyOf] at h
  | cons e rest ih =>
    intro st n h
    obtain ⟨k, v⟩ := e
    by_cases hk : k = st
    · subst hk
      rw [tallyOf, if_pos rfl] at h
      cases h
      exact List.mem_cons_self _ _
    · rw [tallyOf, if_neg hk] at h
      exact List.mem_cons_of_mem _ (ih h)

theorem tallyOf_ne_none_of_mem :
    ∀ {inv : List (PetStatus × Nat)} {st : PetStatus} {n : Nat},
      (st, n) ∈ inv → tallyOf inv st ≠ none := by
  intro inv
  induction inv with
  | nil => intro st n h; cases h
  | cons e rest ih =>
    intro st n h
    obtain ⟨k, v⟩ := e
    by_cases hk : k = st
    · rw [tallyOf, if_pos hk]
      exact Option.some_ne_none v
    · rw [tallyOf, if_neg hk]
      rcases List.mem_cons.mp h with he | hmem
      · cases he; exact absurd rfl hk
      · exact ih hmem

theorem mem_tallyOf_of_nodup :
    ∀ {inv : List (PetStatus × Nat)} {st : PetStatus} {n : Nat},
      (inv.map Prod.fst).Nodup → (st, n) ∈ inv → tallyOf inv st = some n := by
  intro inv
  induction inv with
  | nil => intro st n _ h; cases h
  | cons e rest ih =>
    intro st n hnd h
    obtain ⟨k, v⟩ := e
    have hnd2 : k ∉ rest.map Prod.fst ∧ (rest.map Prod.fst).Nodup := by
      rw [List.map_cons] at hnd
      exact List.nodup_cons.mp hnd
    rcases List.mem_cons.mp h with he | hmem
    · cases he
      rw [tallyOf, if_pos rfl]
    · by_cases hk : k = st
      · subst hk
        exact absurd (List.mem_map_of_mem Prod.fst hmem) hnd2.1
      · rw [tallyOf, if_neg hk]
        exact ih hnd2.2 hmem

theorem mem_keys_bump {inv : List (PetStatus × Nat)} {s x : PetStatus}
    (h : x ∈ (bumpTally inv s).map Prod.fst) :
    x ∈ inv.map Prod.fst ∨ x = s := by
  induction inv with
  | nil => simpa [bumpTally] using h
  | cons e rest ih =>
    obtain ⟨k, v⟩ := e
    by_cases hk : k = s
    · subst hk
      left
      simpa [bumpTally] using h
    · simp only [bumpTally, if_neg hk, List.map_cons, List.mem_cons] at h
      rcases h with rfl | h'
      · left; exact List.mem_cons_self _ _
      · rcases ih h' with hm | hs
        · left; exact List.mem_cons_of_mem _ hm
        · right; exact hs

theorem nodup_keys_bump {inv : List (PetStatus × Nat)} (s : PetStatus)
    (h : (inv.map Prod.fst).Nodup) : ((bumpTally inv s).map Prod.fst).Nodup := by
  induction inv with
  | nil => simp [bumpTally]
  | cons e rest ih =>
    obtain ⟨k, v⟩ := e
    have h2 : k ∉ rest.map Prod.fst ∧ (rest.map Prod.fst).Nodup := by
      rw [List.map_cons] at h
      exact List.nodup_cons.mp h
    by_cases hk : k = s
    · subst hk
      simpa [bumpTally] using h
    · simp only [bumpTally, if_neg hk, List.map_cons, List.nodup_cons]
      refine ⟨?_, ih h2.2⟩
      intro hmem
      rcases mem_keys_bump hmem with hm | hs
      · exact h2.1 hm
      · exact hk hs

theorem bump_pos {inv : List (PetStatus × Nat)} (s : PetStatus)
    (h : ∀ e ∈ inv, 0 < e.2) : ∀ e ∈ bumpTally inv s, 0 < e.2 := by
  induction inv with
  | nil =>
    intro e he
    simp only [bumpTally, List.mem_singleton] at he
    subst he
    exact Nat.zero_lt_one
  | cons a rest ih =>
    obtain ⟨k, v⟩ := a
    intro e he
    by_cases hk : k = s
    · subst hk
      simp only [bumpTally, if_pos rfl] at he
      rcases List.mem_cons.mp he with rfl | hmem
      · exact Nat.succ_pos v
      · exact h e (List.mem_cons_of_mem _ hmem)
    · simp only [bumpTally, if_neg hk] at he
      rcases List.mem_cons.mp he with rfl | hmem
      · exact h (k, v) (List.mem_cons_self _ _)
      · exact ih (fun e' he' => h e' (List.mem_cons_of_mem _ he')) e hmem

theorem bump_sum (inv : List (PetStatus × Nat)) (s : PetStatus) :
    ((bumpTally inv s).map Prod.snd).sum = (inv.map Prod.snd).sum + 1 := by
  induction inv with
  | nil => simp [bumpTally]
  | cons e rest ih =>
    obtain ⟨k, v⟩ := e
    by_cases hk : k = s
    · subst hk
      simp [bumpTally, Nat.add_assoc, Nat.add_comm 1]
    · simp only [bumpTally, if_neg hk, List.map_cons, List.sum_cons, ih]
      omega

/-! ## Claim C1 -/

theorem pyMax_succ_spec (ids : List Int) :
    (ids = [] → pyMax ids 0 + 1 = 1) ∧
    (ids ≠ [] →
      (∃ i ∈ ids, pyMax ids 0 + 1 = i + 1) ∧
      (∀ i ∈ ids, i + 1 ≤ pyMax ids 0 + 1)) := by
  constructor
  · intro h
    rw [h]
    rfl
  · intro h
    exact ⟨⟨pyMax ids 0, pyMax_mem h 0, rfl⟩,
      fun i hi => add_le_add_right (le_pyMax_of_mem hi 0) 1⟩

theorem id_eq_pyMax_spec {α : Type} (getId : α → Int) (l : List α) {n : Int}
    (hn : n = pyMax (l.map getId) 0 + 1) :
    (l = [] → n = 1) ∧
    (l ≠ [] → (∃ q ∈ l, n = getId q + 1) ∧ (∀ q ∈ l, getId q + 1 ≤ n)) := by
  constructor
  · intro h
    rw [hn, h]
    rfl
  · intro h
    have hne : l.map getId ≠ [] := fun hc => h (List.map_eq_nil_iff.mp hc)
    obtain ⟨⟨i, hi, hieq⟩, hall⟩ := (pyMax_succ_spec (l.map getId)).2 hne
    obtain ⟨q, hq, rfl⟩ := List.mem_map.mp hi
    refine ⟨⟨q, hq, by rw [hn, hieq]⟩, ?_⟩
    intro q' hq'
    rw [hn]
    exact hall _ (List.mem_map_of_mem getId hq')

/-- C1: the id assigned by pet creation (and returned in the response)
equals one more than the maximum id currently present, or 1 if the
collection is empty, and the new pet is appended at the end; the same
assignment rule holds for (successful) order creation and user creation. -/
theorem create_assigns_max_plus_one_and_appends
    (pets : List Pet) (preq : PetCreate)
    (users : List User) (orders : List Order) (oreq : OrderCreate)
    (ureq : UserCreate) (now : Nat) :
    ((pets = [] → (create_pet pets preq now).1.id = 1) ∧
     (pets ≠ [] →
       (∃ q ∈ pets, (create_pet pets preq now).1.id = q.id + 1) ∧
       (∀ q ∈ pets, q.id + 1 ≤ (create_pet pets preq now).1.id)) ∧
     (create_pet pets preq now).2 = pets ++ [(create_pet pets preq now).1]) ∧
    (∀ (w : Order) (orders' : List Order),
      create_order pets users orders oreq now = (.ok w, orders') →
      (orders = [] → w.id = 1) ∧
      (orders ≠ [] →
        (∃ q ∈ orders, w.id = q.id + 1) ∧ (∀ q ∈ orders, q.id + 1 ≤ w.id)) ∧
      orders' = orders ++ [w]) ∧
    (∀ (w : User) (users' : List User),
      create_user users ureq now = (.ok w, users') →
      (users = [] → w.id = 1) ∧
      (users ≠ [] →
        (∃ q ∈ users, w.id = q.id + 1) ∧ (∀ q ∈ users, q.id + 1 ≤ w.id)) ∧
      users' = users ++ [w]) := by
  have hpet := id_eq_pyMax_spec Pet.id pets (create_pet_fst_id pets preq now)
  refine ⟨⟨hpet.1, hpet.2, create_pet_snd pets preq now⟩, ?_, ?_⟩
  · intro w orders' h
    by_cases hp : ∃ p ∈ pets, p.id = oreq.pet_id
    · by_cases hu : ∃ u ∈ users, u.id = oreq.user_id
      · obtain ⟨w', hw', hid, -⟩ := create_order_ok hp hu
        rw [hw'] at h
        injection h with h1 h2
        injection h1 with h1
        subst h1
        have hord := id_eq_pyMax_spec Order.id orders hid
        exact ⟨hord.1, hord.2, h2.symm⟩
      · rw [create_order_user_missing hp hu] at h
        injection h with h1 h2
        cases h1
    · rw [create_order_pet_missing hp] at h
      injection h with h1 h2
      cases h1
  · intro w users' h
    by_cases hn : ∃ v ∈ users, v.username = ureq.username
    · rw [create_user_username_taken hn] at h
      injection h with h1 h2
      cases h1
    · by_cases he : ∃ v ∈ users, v.email = ureq.email
      · rw [create_user_email_taken hn he] at h
        injection h with h1 h2
        cases h1
      · obtain ⟨w', hw', hid, -⟩ := create_user_ok hn he
        rw [hw'] at h
        injection h with h1 h2
        injection h1 with h1
        subst h1
        have husr := id_eq_pyMax_spec User.id users hid
        exact ⟨husr.1, husr.2, h2.symm⟩

/-- C1 witness: on the empty collection the assigned pet id is 1, and on the
seeded collection the new pet is appended at the end. -/
theorem create_assigns_max_plus_one_and_appends_witness :
    (create_pet ([] : List Pet) samplePetCreate 5).1.id = 1 ∧
    (create_pet samplePets samplePetCreate 5).2
      = samplePets ++ [(create_pet samplePets samplePetCreate 5).1] :=
  ⟨(create_assigns_max_plus_one_and_appends [] samplePetCreate sampleUsers []
      sampleOrderCreate sampleUserCreate 5).1.1 rfl,
   (create_assigns_max_plus_one_and_appends samplePets samplePetCreate
      sampleUsers [] sampleOrderCreate sampleUserCreate 5).1.2.2⟩

/-! ## Claim C2 -/

theorem option_getD_spec {β : Type} (o : Option β) (d : β) :
    (∀ v, o = some v → o.getD d = v) ∧ (o = none → o.getD d = d) :=
  ⟨fun v hv => by rw [hv]; rfl, fun hv => by rw [hv]; rfl⟩

/-- C2: updating the (first) pet carrying `pet_id` with a partial payload
changes exactly the fields provided in the payload; omitted fields — and
`id` and `created_at`, which a `PetUpdate` cannot carry — keep their prior
values; `updated_at` becomes `some now` (hence moves forward whenever the
clock does); and the updated record keeps its position. -/
theorem update_pet_is_sparse_merge
    (l₁ l₂ : List Pet) (p : Pet) (pet_id : Int) (u : PetUpdate) (now : Nat)
    (hskip : ∀ q ∈ l₁, q.id ≠ pet_id) (hp : p.id = pet_id) :
    update_pet (l₁ ++ p :: l₂) pet_id u now =
      some (applyPetUpdate p u now, l₁ ++ applyPetUpdate p u now :: l₂) ∧
    (applyPetUpdate p u now).id = p.id ∧
    (applyPetUpdate p u now).created_at = p.created_at ∧
    (∀ v, u.name = some v → (applyPetUpdate p u now).name = v) ∧
    (u.name = none → (applyPetUpdate p u now).name = p.name) ∧
    (∀ v, u.category = some v → (applyPetUpdate p u now).category = v) ∧
    (u.category = none → (applyPetUpdate p u now).category = p.category) ∧
    (∀ v, u.status = some v → (applyPetUpdate p u now).status = v) ∧
    (u.status = none → (applyPetUpdate p u now).status = p.status) ∧
    (∀ v, u.tags = some v → (applyPetUpdate p u now).tags = v) ∧
    (u.tags = none → (applyPetUpdate p u now).tags = p.tags) ∧
    (∀ v, u.price = some v → (applyPetUpdate p u now).price = v) ∧
    (u.price = none → (applyPetUpdate p u now).price = p.price) ∧
    (∀ v, u.description = some v → (applyPetUpdate p u now).description = v) ∧
    (u.description = none → (applyPetUpdate p u now).description = p.description) ∧
    (∀ v, u.photo_urls = some v → (applyPetUpdate p u now).photo_urls = v) ∧
    (u.photo_urls = none → (applyPetUpdate p u now).photo_urls = p.photo_urls) ∧
    (applyPetUpdate p u now).updated_at = some now ∧
    (∀ t, p.updated_at = some t → t < now →
      ∀ t', (applyPetUpdate p u now).updated_at = some t' → t < t') :=
  ⟨update_pet_at u now hskip hp, rfl, rfl,
   (option_getD_spec u.name p.name).1, (option_getD_spec u.name p.name).2,
   (option_getD_spec u.category p.category).1, (option_getD_spec u.category p.category).2,
   (option_getD_spec u.status p.status).1, (option_getD_spec u.status p.status).2,
   (option_getD_spec u.tags p.tags).1, (option_getD_spec u.tags p.tags).2,
   (option_getD_spec u.price p.price).1, (option_getD_spec u.price p.price).2,
   (option_getD_spec u.description p.description).1,
   (option_getD_spec u.description p.description).2,
   (option_getD_spec u.photo_urls p.photo_urls).1,
   (option_getD_spec u.photo_urls p.photo_urls).2,
   rfl,
   fun t _ hlt t' ht' => by
     have h1 : (some now : Option Nat) = some t' := ht'
     rw [← Option.some.inj h1]
     exact hlt⟩

/-- C2 witness: updating seeded pet 2 with a payload carrying only `status`
and `price` replaces it in place with the merged record. -/
theorem update_pet_is_sparse_merge_witness :
    update_pet samplePets 2 samplePetUpdate 7 =
      some (applyPetUpdate (samplePets.get ⟨1, by decide⟩) samplePetUpdate 7,
        [samplePets.get ⟨0, by decide⟩] ++
          applyPetUpdate (samplePets.get ⟨1, by decide⟩) samplePetUpdate 7 ::
            [samplePets.get ⟨2, by decide⟩]) :=
  (update_pet_is_sparse_merge [samplePets.get ⟨0, by decide⟩]
    [samplePets.get ⟨2, by decide⟩] (samplePets.get ⟨1, by decide⟩) 2
    samplePetUpdate 7 (by decide) (by decide)).1

/-! ## Claims C3, C4, C10 -/

/-- C3: order creation with a `pet_id` matching no pet or a `user_id`
matching no user fails with a 400 bad-request error (not 404) and leaves the
orders collection unchanged; otherwise it assigns an id, sets `created_at`,
appends the order and returns it. -/
theorem create_order_validates_references
    (pets : List Pet) (users : List User) (orders : List Order)
    (o : OrderCreate) (now : Nat) :
    (((¬ ∃ p ∈ pets, p.id = o.pet_id) ∨ (¬ ∃ u ∈ users, u.id = o.user_id)) →
      (create_order pets users orders o now).2 = orders ∧
      ∃ e, (create_order pets users orders o now).1 = .error e ∧
        e.status_code = 400 ∧ e.status_code ≠ 404) ∧
    ((∃ p ∈ pets, p.id = o.pet_id) → (∃ u ∈ users, u.id = o.user_id) →
      ∃ w, create_order pets users orders o now = (.ok w, orders ++ [w]) ∧
        w.pet_id = o.pet_id ∧ w.user_id = o.user_id ∧
        w.id = pyMax (orders.map Order.id) 0 + 1 ∧ w.created_at = now) := by
  constructor
  · intro h
    by_cases hp : ∃ p ∈ pets, p.id = o.pet_id
    · rcases h with h | hu
      · exact absurd hp h
      · rw [create_order_user_missing hp hu]
        exact ⟨rfl, ⟨400, "User not found"⟩, rfl, rfl, by decide⟩
    · rw [create_order_pet_missing hp]
      exact ⟨rfl, ⟨400, "Pet not found"⟩, rfl, rfl, by decide⟩
  · intro hp hu
    obtain ⟨w, hw, hid, hpid, huid, _, _, _, _, hca, _⟩ := create_order_ok hp hu
    exact ⟨w, hw, hpid, huid, hid, hca⟩

/-- C3 witness: an order request referencing pet 999 and user 999 against
the seeded collections leaves the (empty) orders collection unchanged. -/
theorem create_order_validates_references_witness :
    (create_order samplePets sampleUsers [] badOrderCreate 5).2 = [] :=
  ((create_order_validates_references samplePets sampleUsers [] badOrderCreate 5).1
    (Or.inl (by decide))).1

/-- C4: user creation with a username or email exactly matching an existing
user fails with a 400 bad-request error and leaves the users collection
unchanged; otherwise it assigns an id, sets `created_at` and appends. -/
theorem create_user_validates_uniqueness
    (users : List User) (u : UserCreate) (now : Nat) :
    (((∃ v ∈ users, v.username = u.username) ∨ (∃ v ∈ users, v.email = u.email)) →
      (create_user users u now).2 = users ∧
      ∃ e, (create_user users u now).1 = .error e ∧ e.status_code = 400) ∧
    ((¬ ∃ v ∈ users, v.username = u.username) →
      (¬ ∃ v ∈ users, v.email = u.email) →
      ∃ w, create_user users u now = (.ok w, users ++ [w]) ∧
        w.username = u.username ∧ w.email = u.email ∧
        w.id = pyMax (users.map User.id) 0 + 1 ∧ w.created_at = now) := by
  constructor
  · intro h
    by_cases hn : ∃ v ∈ users, v.username = u.username
    · rw [create_user_username_taken hn]
      exact ⟨rfl, ⟨400, "Username already exists"⟩, rfl, rfl⟩
    · rcases h with h | he
      · exact absurd h hn
      · rw [create_user_email_taken hn he]
        exact ⟨rfl, ⟨400, "Email already exists"⟩, rfl, rfl⟩
  · intro hn he
    obtain ⟨w, hw, hid, hun, _, _, hem, _, _, _, hca, _⟩ := create_user_ok hn he
    exact ⟨w, hw, hun, hem, hid, hca⟩

/-- C4 witness: a request whose username collides with seeded user 1 leaves
the seeded users collection unchanged. -/
theorem create_user_validates_uniqueness_witness :
    (create_user sampleUsers dupUserCreate 5).2 = sampleUsers :=
  ((create_user_validates_uniqueness sampleUsers dupUserCreate 5).1
    (Or.inl (by decide))).1

/-- C10: in order creation the pet-existence check runs before the
user-existence check — a missing pet yields detail "Pet not found" even when
the user is missing too, and "User not found" occurs only when the pet
exists and the user does not; in user creation the username check precedes
the email check, so a double collision yields "Username already exists". -/
theorem existence_checks_are_ordered
    (pets : List Pet) (users : List User) (orders : List Order)
    (o : OrderCreate) (now : Nat) (users₂ : List User) (u : UserCreate) :
    ((¬ ∃ p ∈ pets, p.id = o.pet_id) →
      (create_order pets users orders o now).1 = .error ⟨400, "Pet not found"⟩) ∧
    (∀ e, (create_order pets users orders o now).1 = .error e →
      e.detail = "User not found" →
      (∃ p ∈ pets, p.id = o.pet_id) ∧ ¬ ∃ v ∈ users, v.id = o.user_id) ∧
    ((∃ v ∈ users₂, v.username = u.username) →
      (create_user users₂ u now).1 = .error ⟨400, "Username already exists"⟩) := by
  refine ⟨?_, ?_, ?_⟩
  · intro h
    rw [create_order_pet_missing h]
  · intro e he hdetail
    by_cases hp : ∃ p ∈ pets, p.id = o.pet_id
    · by_cases hu : ∃ v ∈ users, v.id = o.user_id
      · obtain ⟨w, hw, -⟩ := create_order_ok hp hu
        rw [hw] at he
        cases he
      · exact ⟨hp, hu⟩
    · rw [create_order_pet_missing hp] at he
      have he' : (Except.error ⟨400, "Pet not found"⟩ : Except HTTPError Order)
          = .error e := he
      injection he' with he'
      rw [← he'] at hdetail
      exact absurd hdetail (by decide)
  · intro h
    rw [create_user_username_taken h]

/-- C10 witness: a request missing both its pet and its user reports "Pet
not found", and a request colliding on both username and email reports
"Username already exists". -/
theorem existence_checks_are_ordered_witness :
    (create_order samplePets sampleUsers [] badOrderCreate 5).1
      = .error ⟨400, "Pet not found"⟩ ∧
    (create_user sampleUsers dupUserCreate 5).1
      = .error ⟨400, "Username already exists"⟩ :=
  ⟨(existence_checks_are_ordered samplePets sampleUsers [] badOrderCreate 5
      sampleUsers dupUserCreate).1 (by decide),
   (existence_checks_are_ordered samplePets sampleUsers [] badOrderCreate 5
      sampleUsers dupUserCreate).2.2 (by decide)⟩

/-! ## Claim C5 (refuted as stated: ids are reused after deletions) -/

/-- C5 counterexample: creating a pet against the seeded collection assigns
id 4; after deleting that pet, a later creation assigns id 4 again — the id
of a deleted record is reused. -/
theorem id_reuse_counterexample :
    (create_pet samplePets samplePetCreate 1).1.id = 4 ∧
    deleteFirst Pet.id (create_pet samplePets samplePetCreate 1).2 4
      = some samplePets ∧
    (create_pet samplePets samplePetCreate 2).1.id = 4 :=
  ⟨rfl, rfl, rfl⟩

/-- C5 amended: a creation never assigns an id currently present in the
collection — the new id strictly exceeds every present id — but once the
record holding the maximum id is deleted, a later creation can reassign a
previously assigned id. -/
theorem created_id_fresh_among_present
    (pets : List Pet) (req : PetCreate) (now : Nat) :
    ∀ p ∈ pets,
      p.id < (create_pet pets req now).1.id ∧
      p.id ≠ (create_pet pets req now).1.id := by
  intro p hp
  have hlt := mem_id_lt_create_pet_id hp req now
  exact ⟨hlt, ne_of_lt hlt⟩

/-- C5 witness: seeded pet 1's id differs from the id assigned by a creation
against the seeded collection. -/
theorem created_id_fresh_among_present_witness :
    (samplePets.get ⟨0, by decide⟩).id
      ≠ (create_pet samplePets samplePetCreate 5).1.id :=
  (created_id_fresh_among_present samplePets samplePetCreate 5
    (samplePets.get ⟨0, by decide⟩) (List.mem_cons_self _ _)).2

/-! ## Claim C6 (uniqueness holds; monotone assignment refuted) -/

/-- C6 counterexample: from the seeded pets a creation assigns id 4; after
deleting pet 4 and then pet 3 (both legal handler operations, as the
`deleteFirst` equations show), the next creation assigns id 3 < 4 — the
sequence of assigned ids is not monotonically non-decreasing. -/
theorem assigned_ids_can_decrease :
    (create_pet samplePets samplePetCreate 1).1.id = 4 ∧
    deleteFirst Pet.id (create_pet samplePets samplePetCreate 1).2 4
      = some samplePets ∧
    deleteFirst Pet.id samplePets 3 = some (samplePets.take 2) ∧
    (create_pet (samplePets.take 2) samplePetCreate 2).1.id = 3 :=
  ⟨rfl, rfl, rfl, rfl⟩

/-- C6 amended: in every state reachable from the seeded initial state the
ids within each of the three collections are strictly increasing in stored
order — in particular pairwise distinct; the sequence of ids assigned by
successive creations, however, can decrease after deletions. -/
theorem reachable_ids_sorted_and_distinct (s : AppState) (h : Reachable s) :
    idsStrictSorted s ∧
    (s.pets.map Pet.id).Pairwise (· ≠ ·) ∧
    (s.orders.map Order.id).Pairwise (· ≠ ·) ∧
    (s.users.map User.id).Pairwise (· ≠ ·) := by
  have hs := reachable_sorted h
  exact ⟨hs, hs.1.imp ne_of_lt, hs.2.1.imp ne_of_lt, hs.2.2.imp ne_of_lt⟩

/-- C6 witness: the invariant holds at the seeded initial state. -/
theorem reachable_ids_sorted_and_distinct_witness :
    idsStrictSorted initState ∧
    (initState.pets.map Pet.id).Pairwise (· ≠ ·) ∧
    (initState.orders.map Order.id).Pairwise (· ≠ ·) ∧
    (initState.users.map User.id).Pairwise (· ≠ ·) :=
  reachable_ids_sorted_and_distinct initState Relation.ReflTransGen.refl

/-! ## Claim C7 -/

theorem foldTally_tallyOf (pets : List Pet) :
    ∀ (inv : List (PetStatus × Nat)) (st : PetStatus),
      (tallyOf (foldTally pets inv) st).getD 0
        = (tallyOf inv st).getD 0 + pets.countP (fun p => p.status == st) := by
  induction pets with
  | nil => intro inv st; simp [foldTally, List.countP_nil]
  | cons p rest ih =>
    intro inv st
    have hfold : foldTally (p :: rest) inv = foldTally rest (bumpTally inv p.status) :=
      rfl
    rw [hfold, ih]
    by_cases hst : p.status = st
    · subst hst
      rw [tallyOf_bump_self]
      rw [List.countP_cons_of_pos _ _ (by simp)]
      simp only [Option.getD_some]
      omega
    · rw [tallyOf_bump_ne inv (fun hc => hst hc.symm)]
      rw [List.countP_cons_of_neg _ _ (by simpa using hst)]

theorem foldTally_nodup (pets : List Pet) :
    ∀ inv, (inv.map Prod.fst).Nodup → ((foldTally pets inv).map Prod.fst).Nodup := by
  induction pets with
  | nil => intro inv h; exact h
  | cons p rest ih =>
    intro inv h
    exact ih (bumpTally inv p.status) (nodup_keys_bump p.status h)

theorem foldTally_pos (pets : List Pet) :
    ∀ inv, (∀ e ∈ inv, 0 < e.2) → ∀ e ∈ foldTally pets inv, 0 < e.2 := by
  induction pets with
  | nil => intro inv h; exact h
  | cons p rest ih =>
    intro inv h
    exact ih (bumpTally inv p.status) (bump_pos p.status h)

theorem foldTally_sum (pets : List Pet) :
    ∀ inv, ((foldTally pets inv).map Prod.snd).sum
      = (inv.map Prod.snd).sum + pets.length := by
  induction pets with
  | nil => intro inv; simp [foldTally]
  | cons p rest ih =>
    intro inv
    have hfold : foldTally (p :: rest) inv = foldTally rest (bumpTally inv p.status) :=
      rfl
    rw [hfold, ih, bump_sum, List.length_cons]
    omega

/-- C7: the inventory's key set is exactly the set of statuses held by at
least one current pet (a status with zero pets is absent, never present with
value 0), each key maps to the number of pets holding that status, and the
values sum to the total number of pets. -/
theorem get_inventory_tallies_statuses (pets : List Pet) :
    (∀ st : PetStatus,
      (∃ n, (st, n) ∈ get_inventory pets) ↔ (∃ p ∈ pets, p.status = st)) ∧
    (∀ st n, (st, n) ∈ get_inventory pets →
      n = pets.countP (fun p => p.status == st) ∧ 0 < n) ∧
    (∀ st : PetStatus, (st, 0) ∉ get_inventory pets) ∧
    ((get_inventory pets).map Prod.snd).sum = pets.length := by
  have hginv : get_inventory pets = foldTally pets [] := rfl
  have hnd : ((foldTally pets []).map Prod.fst).Nodup :=
    foldTally_nodup pets [] (by simp)
  have hpos : ∀ e ∈ foldTally pets [], 0 < e.2 :=
    foldTally_pos pets [] (by simp)
  have hcount : ∀ st, (tallyOf (foldTally pets []) st).getD 0
      = pets.countP (fun p => p.status == st) := by
    intro st
    rw [foldTally_tallyOf]
    simp [tallyOf]
  have hmem_count : ∀ st n, (st, n) ∈ foldTally pets [] →
      n = pets.countP (fun p => p.status == st) := by
    intro st n hmem
    have hsome := mem_tallyOf_of_nodup hnd hmem
    rw [← hcount st, hsome]
    rfl
  refine ⟨?_, ?_, ?_, ?_⟩
  · intro st
    constructor
    · rintro ⟨n, hmem⟩
      have hmem' : (st, n) ∈ foldTally pets [] := hginv ▸ hmem
      have hn : 0 < n := hpos (st, n) hmem'
      have hcp : 0 < pets.countP (fun p => p.status == st) :=
        (hmem_count st n hmem') ▸ hn
      obtain ⟨p, hp, hps⟩ := List.countP_pos_iff.mp hcp
      exact ⟨p, hp, by simpa using hps⟩
    · rintro ⟨p, hp, hps⟩
      have hcp : 0 < pets.countP (fun p => p.status == st) :=
        List.countP_pos_iff.mpr ⟨p, hp, by simpa using hps⟩
      have h0 : 0 < (tallyOf (foldTally pets []) st).getD 0 := by
        rw [hcount st]
        exact hcp
      cases htal : tallyOf (foldTally pets []) st with
      | none => rw [htal] at h0; simp at h0
      | some n => exact ⟨n, hginv ▸ tallyOf_eq_some_mem htal⟩
  · intro st n hmem
    have hmem' : (st, n) ∈ foldTally pets [] := hginv ▸ hmem
    exact ⟨hmem_count st n hmem', hpos (st, n) hmem'⟩
  · intro st hmem
    have hmem' : (st, 0) ∈ foldTally pets [] := hginv ▸ hmem
    exact absurd (hpos (st, 0) hmem') (lt_irrefl 0)
  · rw [hginv, foldTally_sum]
    simp

/-- C7 witness: the seeded collection has two available pets, and the
inventory entry for "available" reports exactly that count. -/
theorem get_inventory_tallies_statuses_witness :
    (2 : Nat) = samplePets.countP (fun p => p.status == PetStatus.available) ∧
    0 < (2 : Nat) :=
  (get_inventory_tallies_statuses samplePets).2.1 .available 2 (by decide)

/-! ## Claim C8 -/

theorem get_pets_eq_slice_of_filter (pets : List Pet) (status : Option PetStatus)
    (category : Option PetCategory) (limit offset : Nat) :
    get_pets pets status category limit offset =
      ((pets.filter (petMatches status category)).drop offset).take limit := by
  cases status with
  | none =>
    cases category with
    | none =>
      show (pets.drop offset).take limit = _
      rw [show pets.filter (petMatches none none) = pets from
        List.filter_eq_self.mpr (fun a _ => rfl)]
    | some c =>
      show ((pets.filter (fun p => p.category == c)).drop offset).take limit = _
      rw [show pets.filter (petMatches none (some c))
          = pets.filter (fun p => p.category == c) from
        List.filter_congr (fun a _ => rfl)]
  | some st =>
    cases category with
    | none =>
      show ((pets.filter (fun p => p.status == st)).drop offset).take limit = _
      rw [show pets.filter (petMatches (some st) none)
          = pets.filter (fun p => p.status == st) from
        List.filter_congr (fun a _ => Bool.and_true _)]
    | some c =>
      show (((pets.filter (fun p => p.status == st)).filter
        (fun p => p.category == c)).drop offset).take limit = _
      rw [List.filter_filter]
      rw [show pets.filter (petMatches (some st) (some c))
          = pets.filter (fun a => (a.category == c) && (a.status == st)) from
        List.filter_congr (fun a _ =>
          Bool.and_comm (a.status == st) (a.category == c))]

/-- C8: the pet list endpoint returns the pets satisfying both given
filters conjunctively, in insertion order (it is a sublist of the
collection), sliced to `[offset, offset+limit)` of the filtered result; an
offset at or beyond the filtered result's size yields `[]`, not an error. -/
theorem get_pets_filters_and_paginates (pets : List Pet)
    (status : Option PetStatus) (category : Option PetCategory)
    (limit offset : Nat) (h1 : 1 ≤ limit) (h2 : limit ≤ 100) :
    get_pets pets status category limit offset =
      ((pets.filter (petMatches status category)).drop offset).take limit ∧
    (get_pets pets status category limit offset).Sublist pets ∧
    ((pets.filter (petMatches status category)).length ≤ offset →
      get_pets pets status category limit offset = []) := by
  have hmain := get_pets_eq_slice_of_filter pets status category limit offset
  refine ⟨hmain, ?_, ?_⟩
  · rw [hmain]
    exact ((List.take_sublist _ _).trans (List.drop_sublist _ _)).trans
      (List.filter_sublist pets)
  · intro hoff
    rw [hmain, List.drop_eq_nil_of_le hoff, List.take_nil]

/-- C8 witness: listing the seeded pets with the available-status filter,
limit 2 and offset 0 equals the sliced filtered result. -/
theorem get_pets_filters_and_paginates_witness :
    get_pets samplePets (some .available) none 2 0 =
      ((samplePets.filter (petMatches (some .available) none)).drop 0).take 2 :=
  (get_pets_filters_and_paginates samplePets (some .available) none 2 0
    (by decide) (by decide)).1

/-! ## Claim C9 -/

/-- C9: deleting a pet by id fails with 404 when no pet carries the id;
otherwise (given the id-uniqueness invariant) it removes exactly that pet —
all other pets keep their relative order, and the orders and users
collections are untouched — and a subsequent get of the same id yields 404. -/
theorem delete_pet_removes_exactly (s : AppState) (pid : Int) :
    ((∀ p ∈ s.pets, p.id ≠ pid) →
      delete_pet s pid = .error ⟨404, "Pet not found"⟩) ∧
    ((s.pets.map Pet.id).Pairwise (· ≠ ·) →
      ∀ p ∈ s.pets, p.id = pid →
        delete_pet s pid = .ok
          { pets := s.pets.filter (fun q => q.id != pid)
            orders := s.orders
            users := s.users } ∧
        get_pet (s.pets.filter (fun q => q.id != pid)) pid
          = .error ⟨404, "Pet not found"⟩) := by
  constructor
  · intro h
    unfold delete_pet
    rw [(deleteFirst_eq_none_iff Pet.id s.pets pid).mpr h]
  · intro hnd p hp hpid
    have hdel := deleteFirst_eq_filter Pet.id hnd hp hpid
    constructor
    · unfold delete_pet
      rw [hdel]
    · unfold get_pet
      have hfind : (s.pets.filter (fun q => q.id != pid)).find?
          (fun q => q.id == pid) = none := by
        apply List.find?_eq_none.mpr
        intro q hq
        have hne := List.of_mem_filter hq
        simpa using hne
      rw [hfind]

/-- C9 witness: deleting seeded pet 2 removes exactly that pet (orders and
users untouched), and getting id 2 afterwards yields 404; deleting the
absent id 999 yields 404. -/
theorem delete_pet_removes_exactly_witness :
    (delete_pet initState 2 = .ok
      { pets := initState.pets.filter (fun q => q.id != 2)
        orders := initState.orders
        users := initState.users } ∧
     get_pet (initState.pets.filter (fun q => q.id != 2)) 2
       = .error ⟨404, "Pet not found"⟩) ∧
    delete_pet initState 999 = .error ⟨404, "Pet not found"⟩ :=
  ⟨(delete_pet_removes_exactly initState 2).2 (by decide)
      (samplePets.get ⟨1, by decide⟩)
      (List.mem_cons_of_mem _ (List.mem_cons_self _ _)) rfl,
   (delete_pet_removes_exactly initState 999).1 (by decide)⟩

end PetStore
